import Mathlib

/-!
Verification development for the bias-summarization routine of
`CGATPipelines/pipeline_rnaseqqc.py` (function `summariseBias` and its inner
helpers `percentage`, `aggregate_by_factor`, `lin_reg_grad`).

Modelling conventions:

* Machine floats are modelled by `PFloat`: either a rational value or NaN.
  Values parsed from the input TSV tables are rationals (or NaN for missing
  cells); IEEE infinities are unreachable in this pipeline, because every
  division either has a provably nonzero denominator or a zero numerator
  (the one `0/0` case, min-max normalization of a constant column, yields
  NaN exactly as numpy does).  The unreachable nonzero/zero branch of
  division is therefore also collapsed to NaN.
* `numpy.log2` and the square root used inside Pearson correlation are
  transcendental; they are kept as explicit function parameters
  (`log2 sqrtQ : ℚ → ℚ`), and every theorem is universally quantified over
  them, so it holds in particular for the real log2/sqrt.
* pandas data frames are association lists of named columns over a list of
  row identifiers (the index).  Column labels are assumed distinct, as in
  the pipeline's tables.
* `pandas.qcut` (as of the pandas generation this pipeline targets, which
  still has `DataFrame.sort(axis=1)` and `.ix`) computes linearly
  interpolated quantile edges over the non-missing values, raises
  `ValueError: Bin edges must be unique` on duplicate edges, and assigns
  missing values to no bin.  Zero requested bins or an all-missing column
  would fail inside numpy; these two guards are modelled as errors as well.
-/

/-- A pandas/numpy scalar: a rational number or NaN (missing / undefined). -/
inductive PFloat where
  | nan : PFloat
  | val : ℚ → PFloat
deriving DecidableEq, Repr

/-- IEEE addition on the reachable fragment: NaN propagates. -/
def pf_add : PFloat → PFloat → PFloat
  | PFloat.val a, PFloat.val b => PFloat.val (a + b)
  | _, _ => PFloat.nan

/-- IEEE subtraction on the reachable fragment: NaN propagates. -/
def pf_sub : PFloat → PFloat → PFloat
  | PFloat.val a, PFloat.val b => PFloat.val (a - b)
  | _, _ => PFloat.nan

/-- IEEE division on the reachable fragment: NaN propagates and `0/0 = NaN`.
The nonzero/zero case (IEEE infinity) is unreachable in this pipeline (every
zero denominator comes with a zero numerator) and is collapsed to NaN. -/
def pf_div : PFloat → PFloat → PFloat
  | PFloat.val a, PFloat.val b => if b = 0 then PFloat.nan else PFloat.val (a / b)
  | _, _ => PFloat.nan

/-- Apply a real-valued elementwise function (e.g. `numpy.log2`): NaN maps
to NaN. -/
def pfApply (f : ℚ → ℚ) : PFloat → PFloat
  | PFloat.nan => PFloat.nan
  | PFloat.val q => PFloat.val (f q)

/-- The non-missing values of a column, in row order (what pandas `skipna`
reductions and `qcut`'s quantile computation operate on). -/
def vals : List PFloat → List ℚ
  | [] => []
  | PFloat.nan :: xs => vals xs
  | PFloat.val q :: xs => q :: vals xs

/-- pandas column `min` (skipna): NaN on an all-missing column. -/
def pMin (c : List PFloat) : PFloat :=
  match vals c with
  | [] => PFloat.nan
  | q :: qs => PFloat.val (qs.foldl min q)

/-- pandas column `max` (skipna): NaN on an all-missing column. -/
def pMax (c : List PFloat) : PFloat :=
  match vals c with
  | [] => PFloat.nan
  | q :: qs => PFloat.val (qs.foldl max q)

/-- `numpy.mean`: sum divided by length; the empty slice gives `0/0 = NaN`
(numpy emits a warning, not an error), and any NaN input gives NaN. -/
def pMean (xs : List PFloat) : PFloat :=
  pf_div (xs.foldl pf_add (PFloat.val 0)) (PFloat.val xs.length)

/-- Whether a column contains a NaN entry. -/
def hasNan : List PFloat → Bool
  | [] => false
  | PFloat.nan :: _ => true
  | PFloat.val _ :: xs => hasNan xs

/-- Mean of a rational list (division by zero only in guarded contexts). -/
def qMeanL (l : List ℚ) : ℚ := l.sum / l.length

/-- Number of list elements strictly below `v` (`searchsorted` side=left). -/
def countLT (l : List ℚ) (v : ℚ) : ℕ :=
  (l.filter (fun e => decide (e < v))).length

/-- Number of list elements equal to `v`. -/
def countEq (l : List ℚ) (v : ℚ) : ℕ :=
  (l.filter (fun e => decide (e = v))).length

/-- Average rank (scipy `rankdata` method=average), 1-based. -/
def rankAvg (l : List ℚ) (v : ℚ) : ℚ :=
  (countLT l v : ℚ) + ((countEq l v : ℚ) + 1) / 2

/-- Ranks of a list, with ties receiving their average rank. -/
def ranks (l : List ℚ) : List ℚ := l.map (rankAvg l)

/-- Pearson correlation over rationals; NaN when either variance is zero
(pandas produces NaN there).  The square root is the abstract `sqrtQ`. -/
def pearsonQ (sqrtQ : ℚ → ℚ) (u v : List ℚ) : PFloat :=
  let um := qMeanL u
  let vm := qMeanL v
  let num := ((u.zip v).map (fun p => (p.1 - um) * (p.2 - vm))).sum
  let d1 := (u.map (fun x => (x - um) ^ 2)).sum
  let d2 := (v.map (fun x => (x - vm) ^ 2)).sum
  if d1 = 0 ∨ d2 = 0 then PFloat.nan else PFloat.val (num / sqrtQ (d1 * d2))

/-- Row pairs where both entries are non-missing (pandas correlation uses
pairwise-complete observations). -/
def bothVals : List (PFloat × PFloat) → List (ℚ × ℚ)
  | [] => []
  | (PFloat.val a, PFloat.val b) :: r => (a, b) :: bothVals r
  | _ :: r => bothVals r

/-- Spearman correlation of two columns, pandas style (`method=spearman`):
Pearson correlation of the average ranks of the pairwise-complete rows. -/
def spearmanPairs (sqrtQ : ℚ → ℚ) (xs ys : List PFloat) : PFloat :=
  let ps := bothVals (xs.zip ys)
  pearsonQ sqrtQ (ranks (ps.map Prod.fst)) (ranks (ps.map Prod.snd))

/-- `scipy.stats.linregress` slope (`lin_reg_grad` keeps only the slope):
covariance over variance of x.  NaN inputs propagate to a NaN slope; a zero
variance of x gives NaN (scipy's 0-division). -/
def slopeP (xs ys : List PFloat) : PFloat :=
  if hasNan xs || hasNan ys then PFloat.nan
  else
    let u := vals xs
    let v := vals ys
    let um := qMeanL u
    let vm := qMeanL v
    let ssxm := (u.map (fun x => (x - um) ^ 2)).sum
    let ssxym := ((u.zip v).map (fun p => (p.1 - um) * (p.2 - vm))).sum
    if ssxm = 0 then PFloat.nan else PFloat.val (ssxym / ssxm)

/-! ### String ordering (Python `sorted` / pandas `sort(axis=1)`) -/

/-- Lexicographic comparison of character lists by code point, as Python
compares strings. -/
def charListLe : List Char → List Char → Bool
  | [], _ => true
  | _ :: _, [] => false
  | a :: as, b :: bs =>
    if a.toNat < b.toNat then true
    else if b.toNat < a.toNat then false
    else charListLe as bs

/-- `a ≤ b` on strings, Python-style. -/
def strLe (a b : String) : Bool := charListLe a.data b.data

/-- Insert into an ascending list of strings. -/
def insStr (x : String) : List String → List String
  | [] => [x]
  | y :: ys => if strLe x y then x :: y :: ys else y :: insStr x ys

/-- `sorted` on strings (Python's sort is stable; labels here are distinct,
so insertion sort coincides with it). -/
def sortStrings : List String → List String
  | [] => []
  | x :: xs => insStr x (sortStrings xs)

/-- Insert a named column into a list of columns ascending by name. -/
def insPair (x : String × List PFloat) :
    List (String × List PFloat) → List (String × List PFloat)
  | [] => [x]
  | y :: ys => if strLe x.1 y.1 then x :: y :: ys else y :: insPair x ys

/-- `DataFrame.sort(axis=1)`: order the columns by ascending label. -/
def sortPairs : List (String × List PFloat) → List (String × List PFloat)
  | [] => []
  | x :: xs => insPair x (sortPairs xs)

/-- Insert into an ascending list of rationals. -/
def insQ (x : ℚ) : List ℚ → List ℚ
  | [] => [x]
  | y :: ys => if x ≤ y then x :: y :: ys else y :: insQ x ys

/-- `numpy.sort` on the non-missing values. -/
def sortQ : List ℚ → List ℚ
  | [] => []
  | x :: xs => insQ x (sortQ xs)

/-! ### Data frames -/

/-- A pandas data frame: row identifiers (the index) plus named columns.
Labels are distinct in this pipeline's tables. -/
structure DFrame where
  ids : List String
  cols : List (String × List PFloat)
deriving DecidableEq, Repr

/-- Column lookup by label; the pipeline only looks up existing labels
(a missing label would be a pandas `KeyError`; `[]` is a junk default). -/
def lookupColD (cols : List (String × List PFloat)) (name : String) :
    List PFloat :=
  match cols with
  | [] => []
  | c :: cs => if c.1 = name then c.2 else lookupColD cs name

/-! ### pandas.qcut -/

/-- Linearly interpolated quantile of an ascending non-empty list, as
numpy/pandas interpolate: position `p * (n - 1)`. -/
def quantileAt (s : List ℚ) (p : ℚ) : ℚ :=
  let n := s.length
  let t := p * ((n : ℚ) - 1)
  let i := t.floor.toNat
  let fr := t - (i : ℚ)
  match s.get? (i + 1) with
  | some hi => (s.get? i).getD 0 + fr * (hi - (s.get? i).getD 0)
  | none => (s.get? i).getD 0

/-- Duplicate detection among quantile edges. -/
def hasDup : List ℚ → Bool
  | [] => false
  | x :: xs => xs.contains x || hasDup xs

def dupEdgesMsg : String := "ValueError: Bin edges must be unique"

def emptyColMsg : String := "ValueError: quantiles of an empty array"

def zeroBinsMsg : String := "ValueError: zero bins requested"

/-- Bin index of a non-missing value given the quantile edges: searchsorted
side=left, with the minimum pulled into bin 0 (`include_lowest`). -/
def binIndexOf (edges : List ℚ) (v : ℚ) : ℕ :=
  if v = edges.headD 0 then 0 else countLT edges v - 1

/-- `pandas.qcut(column, bins)`: quantile edges over the non-missing values,
`ValueError` on duplicate edges, per-row bin assignment (`none` = the row is
missing and belongs to no bin). -/
def qcut (xs : List PFloat) (bins : ℕ) : Except String (List (Option ℕ)) :=
  let clean := vals xs
  if bins = 0 then Except.error zeroBinsMsg
  else if clean.isEmpty then Except.error emptyColMsg
  else
    let s := sortQ clean
    let edges := (List.range (bins + 1)).map (fun k => quantileAt s ((k : ℚ) / (bins : ℚ)))
    if hasDup edges then Except.error dupEdgesMsg
    else Except.ok (xs.map (fun x =>
      match x with
      | PFloat.nan => none
      | PFloat.val v => some (binIndexOf edges v)))

/-- The rows of a column that fall into bin `b`. -/
def selectBin (assign : List (Option ℕ)) (col : List PFloat) (b : ℕ) :
    List PFloat :=
  (assign.zip col).filterMap (fun p => if p.1 = some b then some p.2 else none)

/-- `groupby(qcut(...)).agg(mean)` for one column: one mean per bin category
(the old-pandas categorical groupby keeps all `bins` categories; empty bins
yield NaN means). -/
def binnedMeanCol (assign : List (Option ℕ)) (bins : ℕ) (col : List PFloat) :
    List PFloat :=
  (List.range bins).map (fun b => pMean (selectBin assign col b))

/-- Min-max normalization of a column across bins:
`(means_df - means_df.min()) / (means_df.max() - means_df.min())`. -/
def normalizeCol (c : List PFloat) : List PFloat :=
  let mn := pMin c
  let mx := pMax c
  c.map (fun x => pf_div (pf_sub x mn) (pf_sub mx mn))

/-! ### aggregate_by_factor -/

/-- Result of `aggregate_by_factor`: the (normalized, column-sorted) binned
means table, the attrName's column of the Spearman correlation matrix
restricted to the sample rows (`list(corr_matrix[factor])`, rows in the
sorted column order of `means_df`), and the per-sample regression gradients
(in the original sample-column order, as the source's `for sample in
samples` loop produces them). -/
structure AggResult where
  meansDF : List (String × List PFloat)
  corrCol : List PFloat
  gradients : List PFloat
deriving DecidableEq, Repr

/-- `aggregate_by_factor(df, attrName, sample_names, bins, numpy.mean)`:
quantile-bin the rows by the attrName, take per-bin means of every sample
column and of the attribute, sort the columns by label, min-max normalize
the sample columns (not the attribute, which is dropped before
normalization and re-appended unchanged), and extract the attribute column
of the Spearman correlation matrix and the per-sample regression slopes
against the attribute bin means (`attribute` is a Lean keyword, hence the
parameter name `attrName`). -/
def aggregate_by_factor (sqrtQ : ℚ → ℚ) (df : DFrame) (attrName : String)
    (sample_names : List String) (bins : ℕ) : Except String AggResult :=
  let attrVals := lookupColD df.cols attrName
  match qcut attrVals bins with
  | Except.error e => Except.error e
  | Except.ok assign =>
    let attrMeans := binnedMeanCol assign bins attrVals
    let sortedCols := sortPairs (sample_names.map (fun s =>
      (s, normalizeCol (binnedMeanCol assign bins (lookupColD df.cols s)))))
    Except.ok
      { meansDF := sortedCols ++ [(attrName, attrMeans)]
        corrCol := sortedCols.map (fun p => spearmanPairs sqrtQ p.2 attrMeans)
        gradients := sample_names.map (fun s =>
          slopeP attrMeans
            (normalizeCol (binnedMeanCol assign bins (lookupColD df.cols s)))) }

/-- The correlation-matrix entry produced for one sample against one
attribute (used to state relational properties of the outputs). -/
def corrValFor (sqrtQ : ℚ → ℚ) (df : DFrame) (attrName : String) (bins : ℕ)
    (s : String) : PFloat :=
  match qcut (lookupColD df.cols attrName) bins with
  | Except.error _ => PFloat.nan
  | Except.ok assign =>
    spearmanPairs sqrtQ
      (normalizeCol (binnedMeanCol assign bins (lookupColD df.cols s)))
      (binnedMeanCol assign bins (lookupColD df.cols attrName))

/-- The gradient produced for one sample against one attribute (the slope
does not involve the square root). -/
def gradValFor (df : DFrame) (attrName : String) (bins : ℕ)
    (s : String) : PFloat :=
  match qcut (lookupColD df.cols attrName) bins with
  | Except.error _ => PFloat.nan
  | Except.ok assign =>
    slopeP (binnedMeanCol assign bins (lookupColD df.cols attrName))
      (normalizeCol (binnedMeanCol assign bins (lookupColD df.cols s)))

/-! ### The per-factor loop and output assembly -/

/-- Accumulated outputs of the factor loop: per-factor binned means tables,
the columns of `corr_matrix_df` and of `gradient_df` (one column per
factor, keyed in insertion order). -/
structure LoopAcc where
  binned : List (String × List (String × List PFloat))
  corrs : List (String × List PFloat)
  grads : List (String × List PFloat)
deriving DecidableEq, Repr

/-- `for factor in bias_factors: aggregate_by_factor(...)` - the loop body
stores `means_binned`, `corr_matrices[factor]` and `gradient_lists[factor]`;
the first pandas error aborts the run. -/
def aggLoop (sqrtQ : ℚ → ℚ) (df : DFrame) (sample_names : List String)
    (bins : ℕ) : List String → Except String LoopAcc
  | [] => Except.ok ⟨[], [], []⟩
  | f :: fs =>
    match aggregate_by_factor sqrtQ df f sample_names bins with
    | Except.error e => Except.error e
    | Except.ok r =>
      match aggLoop sqrtQ df sample_names bins fs with
      | Except.error e => Except.error e
      | Except.ok acc =>
        Except.ok ⟨(f, r.meansDF) :: acc.binned, (f, r.corrCol) :: acc.corrs,
          (f, r.gradients) :: acc.grads⟩

/-- Assembled outputs of the whole aggregation: the per-factor binned-means
tables, the correlation and gradient tables (as factor-keyed columns), and
the `sample` label column `sorted(samples)` attached to both tables. -/
structure AggOutputs where
  binned : List (String × List (String × List PFloat))
  corrCols : List (String × List PFloat)
  gradCols : List (String × List PFloat)
  sampleLabels : List String
deriving DecidableEq, Repr

/-- The aggregation over all bias factors, plus the
`corr_matrix_df["sample"] = sorted(samples)` /
`gradient_df["sample"] = sorted(samples)` label assembly. -/
def mainAggregation (sqrtQ : ℚ → ℚ) (df : DFrame) (bias_factors : List String)
    (sample_names : List String) (bins : ℕ) : Except String AggOutputs :=
  match aggLoop sqrtQ df sample_names bins bias_factors with
  | Except.error e => Except.error e
  | Except.ok acc =>
    Except.ok ⟨acc.binned, acc.corrs, acc.grads, sortStrings sample_names⟩

/-- Whether an `Except` computation succeeded. -/
def exceptOk {α : Type} : Except String α → Bool
  | Except.ok _ => true
  | Except.error _ => false

/-- The sample labels of a successful aggregation. -/
def aggLabels : Except String AggOutputs → Option (List String)
  | Except.ok o => some o.sampleLabels
  | Except.error _ => none

/-- The correlation-table columns of a successful aggregation. -/
def aggCorrCols : Except String AggOutputs → Option (List (String × List PFloat))
  | Except.ok o => some o.corrCols
  | Except.error _ => none

/-- The gradient-table columns of a successful aggregation. -/
def aggGradCols : Except String AggOutputs → Option (List (String × List PFloat))
  | Except.ok o => some o.gradCols
  | Except.error _ => none

/-- Exchange two names: `swapName a b` maps `a` to `b`, `b` to `a` and fixes
everything else (used to state the column-swap property). -/
def swapName (a b s : String) : String :=
  if s = a then b else if s = b then a else s

/-! ### Preprocessing inside summariseBias -/

def zeroDivMsg : String := "ZeroDivisionError: float division by zero"

/-- `percentage(x) = float(x[0]) / float(x[1])`: plain Python float division
of a dinucleotide count by the row's length, with no guard - a zero length
raises `ZeroDivisionError` (a NaN operand merely yields NaN). -/
def percentage (cnt len : PFloat) : Except String PFloat :=
  if len = PFloat.val 0 then Except.error zeroDivMsg
  else Except.ok (pf_div cnt len)

/-- `temp_df.apply(percentage, axis=1)`: `percentage` applied row by row to
the zipped (count, length) pairs; the first zero length aborts. -/
def diColumn : List (PFloat × PFloat) → Except String (List PFloat)
  | [] => Except.ok []
  | p :: r =>
    match percentage p.1 p.2 with
    | Except.error e => Except.error e
    | Except.ok v =>
      match diColumn r with
      | Except.error e => Except.error e
      | Except.ok vs => Except.ok (v :: vs)

/-- The 16 dinucleotides in the order `itertools.product("ATCG", repeat=2)`
generates them. -/
def DI_LIST : List String :=
  ["AA", "AT", "AC", "AG", "TA", "TT", "TC", "TG",
   "CA", "CT", "CC", "CG", "GA", "GT", "GC", "GG"]

/-- The intermediate composition columns dropped after the fractions are
computed. -/
def dropList : List String :=
  ["nAT", "nGC", "pAT", "pA", "pG", "pC", "pT", "nA",
   "nG", "nC", "nT", "ncodons", "mCountsOthers", "nUnk", "nN", "pN"]

def lengthName : String := "length"

def pGCName : String := "pGC"

def gcContentName : String := "GC_Content"

/-- `atr.rename(columns={'pGC': 'GC_Content'})`. -/
def renamePGC (cols : List (String × List PFloat)) :
    List (String × List PFloat) :=
  cols.map (fun p => if p.1 = pGCName then (gcContentName, p.2) else p)

/-- `atr[name] = v`: replace an existing column in place (labels are
distinct), or append a new one. -/
def setCol (cols : List (String × List PFloat)) (name : String)
    (v : List PFloat) : List (String × List PFloat) :=
  if (cols.map Prod.fst).contains name then
    cols.map (fun p => if p.1 = name then (name, v) else p)
  else cols ++ [(name, v)]

/-- `atr.drop(drop_cols, axis=1)`. -/
def dropCols (names : List String) (cols : List (String × List PFloat)) :
    List (String × List PFloat) :=
  cols.filter (fun p => !(names.contains p.1))

/-- The `for di in iter.product("ATCG", repeat=2)` loop: each dinucleotide
count column is overwritten with count/length via `percentage`. -/
def addDiLoop : List String → List (String × List PFloat) →
    Except String (List (String × List PFloat))
  | [], cols => Except.ok cols
  | di :: rest, cols =>
    match diColumn ((lookupColD cols di).zip (lookupColD cols lengthName)) with
    | Except.error e => Except.error e
    | Except.ok v => addDiLoop rest (setCol cols di v)

/-- `numpy.log2(exp.ix[:, 1:] + 0.1)` with the `Name` column re-attached as
the index: every sample column is shifted by the 0.1 pseudocount and passed
through (the abstract) log2; the identifiers are untouched. -/
def logExpTable (log2 : ℚ → ℚ) (e : DFrame) : DFrame :=
  ⟨e.ids, e.cols.map (fun p =>
    (p.1, p.2.map (fun x => pfApply log2 (pf_add x (PFloat.val (1 / 10))))))⟩

/-- Align a column of a frame, indexed by `tids`, to the row order `keep`
(every member of `keep` occurs in `tids`; the NaN default is junk for the
unreachable miss). -/
def reindexCol (keep tids : List String) (col : List PFloat) : List PFloat :=
  keep.map (fun i => (col.get? (tids.indexOf i)).getD PFloat.nan)

/-- `atr.merge(log_exp, left_index=..., right_index=...)`: the inner join of
two frames on their identifier index.  Rows whose identifier is missing
from either side are silently dropped; surviving rows keep the left frame's
order.  (Identifiers are unique in this pipeline's tables; pandas would
cross-product duplicates.) -/
def mergeFrames (l r : DFrame) : DFrame :=
  let keep := l.ids.filter (fun i => r.ids.contains i)
  ⟨keep,
    l.cols.map (fun p => (p.1, reindexCol keep l.ids p.2)) ++
      r.cols.map (fun p => (p.1, reindexCol keep r.ids p.2))⟩

/-! ### Output rendering (`to_csv`) -/

def tabSep : String := "\t"

def nlSep : String := "\n"

def dotStr : String := "."

def negSign : String := "-"

def sampleColName : String := "sample"

def meansFileBase : String := "quant.dir/means_binned_"

def tsvExt : String := ".tsv"

def corrFileName : String := "quant.dir/binned_means_correlation.tsv"

def gradFileName : String := "quant.dir/binned_means_gradients.tsv"

/-- Round to the nearest integer (the `%.Nf` rounding of a binary double at
an exact decimal tie is representation-dependent; ties round up here, which
is observationally deterministic all the same). -/
def ratRound (q : ℚ) : ℤ := (q + 1 / 2).floor

/-- Decimal digits of a natural number, left-padded with zeros to width `d`. -/
def natPad (d : ℕ) (n : ℕ) : String :=
  let s := toString n
  String.mk (List.replicate (d - s.length) '0') ++ s

/-- `%.<d>f` fixed-point formatting of a rational. -/
def fmtRat (d : ℕ) (q : ℚ) : String :=
  let m := ratRound (q * ((10 : ℚ) ^ d))
  let a := m.natAbs
  (if m < 0 then negSign else "") ++ toString (a / 10 ^ d) ++ dotStr ++
    natPad d (a % 10 ^ d)

/-- A formatted cell: pandas `to_csv` writes NaN as the empty string. -/
def fmtCell (d : ℕ) : PFloat → String
  | PFloat.nan => ""
  | PFloat.val q => fmtRat d q

/-- One data row of `to_csv` (without label column). -/
def renderRow (d : ℕ) (cols : List (String × List PFloat)) (i : ℕ) : String :=
  String.intercalate tabSep
    (cols.map (fun p => fmtCell d ((p.2.get? i).getD PFloat.nan)))

/-- `to_csv(sep="\t", index=False, float_format=...)` for a frame whose
columns all have `n` rows, with an optional trailing string column. -/
def renderTable (d : ℕ) (cols : List (String × List PFloat))
    (labels : Option (List String)) (n : ℕ) : String :=
  let header := String.intercalate tabSep (cols.map Prod.fst) ++
    (match labels with
     | some _ => tabSep ++ sampleColName
     | none => "")
  let row := fun i => renderRow d cols i ++
    (match labels with
     | some ls => tabSep ++ (ls.get? i).getD ""
     | none => "")
  String.intercalate nlSep (header :: (List.range n).map row) ++ nlSep

/-- The files written by `summariseBias`: one binned-means table per factor
(4 decimals), then the correlation and gradient tables (6 decimals, with
the `sample` label column). -/
def renderFiles (outs : AggOutputs) (binsRows : ℕ) : List (String × String) :=
  outs.binned.map (fun p =>
      (meansFileBase ++ p.1 ++ tsvExt, renderTable 4 p.2 none binsRows)) ++
    [(corrFileName,
      renderTable 6 outs.corrCols (some outs.sampleLabels)
        outs.sampleLabels.length),
     (gradFileName,
      renderTable 6 outs.gradCols (some outs.sampleLabels)
        outs.sampleLabels.length)]

/-! ### summariseBias -/

/-- Outputs of a full `summariseBias` run: the in-memory tables plus the
rendered TSV files. -/
structure FinalOut where
  outputs : AggOutputs
  files : List (String × String)
deriving DecidableEq, Repr

/-- The whole of `summariseBias`: rename `pGC`, turn the 16 dinucleotide
counts into fractions of the row length, drop the intermediate composition
columns, log2 the length, log2(x + 0.1) every expression column, inner-join
on the identifier index, aggregate every remaining attribute column, and
render the output tables.  `log2` and `sqrtQ` abstract the transcendental
functions; `atr` is the attribute frame (indexed by `id`), `expr` the
expression frame (indexed by its `Name` column, one column per sample). -/
def summariseBias (log2 sqrtQ : ℚ → ℚ) (atr expr : DFrame) (bins : ℕ) :
    Except String FinalOut :=
  let cols1 := renamePGC atr.cols
  match addDiLoop DI_LIST cols1 with
  | Except.error e => Except.error e
  | Except.ok cols2 =>
    let cols3 := dropCols dropList cols2
    let cols4 := setCol cols3 lengthName
      ((lookupColD cols3 lengthName).map (pfApply log2))
    let logExp := logExpTable log2 expr
    let bias_factors := cols4.map Prod.fst
    let sample_names := expr.cols.map Prod.fst
    let merged := mergeFrames ⟨atr.ids, cols4⟩ logExp
    match mainAggregation sqrtQ merged bias_factors sample_names bins with
    | Except.error e => Except.error e
    | Except.ok outs => Except.ok ⟨outs, renderFiles outs bins⟩

/-! ### Helper lemmas on the scalar operations -/

theorem pf_sub_nan_left (x : PFloat) : pf_sub PFloat.nan x = PFloat.nan := by
  cases x <;> rfl

theorem pf_div_nan_left (x : PFloat) : pf_div PFloat.nan x = PFloat.nan := by
  cases x <;> rfl

theorem pf_sub_val (a b : ℚ) :
    pf_sub (PFloat.val a) (PFloat.val b) = PFloat.val (a - b) := rfl

theorem pf_div_val (a b : ℚ) (h : b ≠ 0) :
    pf_div (PFloat.val a) (PFloat.val b) = PFloat.val (a / b) := by
  simp [pf_div, h]

/-! ### Helper lemmas on folds of min/max -/

theorem foldl_min_le (l : List ℚ) : ∀ a : ℚ, l.foldl min a ≤ a := by
  induction l with
  | nil => intro a; exact le_refl a
  | cons x xs ih =>
    intro a
    exact le_trans (ih (min a x)) (min_le_left a x)

theorem le_foldl_max (l : List ℚ) : ∀ a : ℚ, a ≤ l.foldl max a := by
  induction l with
  | nil => intro a; exact le_refl a
  | cons x xs ih =>
    intro a
    exact le_trans (le_max_left a x) (ih (max a x))

theorem foldl_min_le_mem (l : List ℚ) :
    ∀ (a b : ℚ), b ∈ l → l.foldl min a ≤ b := by
  induction l with
  | nil => intro a b hb; cases hb
  | cons x xs ih =>
    intro a b hb
    rcases List.mem_cons.mp hb with h | h
    · subst h
      exact le_trans (foldl_min_le xs (min a b)) (min_le_right a b)
    · exact ih (min a x) b h

theorem mem_le_foldl_max (l : List ℚ) :
    ∀ (a b : ℚ), b ∈ l → b ≤ l.foldl max a := by
  induction l with
  | nil => intro a b hb; cases hb
  | cons x xs ih =>
    intro a b hb
    rcases List.mem_cons.mp hb with h | h
    · subst h
      exact le_trans (le_max_right a b) (le_foldl_max xs (max a b))
    · exact ih (max a x) b h

theorem foldl_min_map (f : ℚ → ℚ) (hf : ∀ a b, f (min a b) = min (f a) (f b))
    (l : List ℚ) : ∀ a : ℚ, (l.map f).foldl min (f a) = f (l.foldl min a) := by
  induction l with
  | nil => intro a; rfl
  | cons x xs ih =>
    intro a
    simp only [List.map_cons, List.foldl_cons]
    rw [← hf a x, ih (min a x)]

theorem foldl_max_map (f : ℚ → ℚ) (hf : ∀ a b, f (max a b) = max (f a) (f b))
    (l : List ℚ) : ∀ a : ℚ, (l.map f).foldl max (f a) = f (l.foldl max a) := by
  induction l with
  | nil => intro a; rfl
  | cons x xs ih =>
    intro a
    simp only [List.map_cons, List.foldl_cons]
    rw [← hf a x, ih (max a x)]

/-! ### Helper lemmas on `vals` -/

theorem vals_mem {c : List PFloat} {q : ℚ} (h : PFloat.val q ∈ c) :
    q ∈ vals c := by
  induction c with
  | nil => cases h
  | cons x xs ih =>
    rcases List.mem_cons.mp h with h' | h'
    · subst h'
      simp [vals]
    · cases x with
      | nan => simpa [vals] using ih h'
      | val r => simp [vals, ih h']

theorem vals_nil_all_nan {c : List PFloat} (h : vals c = []) :
    ∀ x ∈ c, x = PFloat.nan := by
  intro x hx
  cases x with
  | nan => rfl
  | val q =>
    have := vals_mem hx
    rw [h] at this
    cases this

theorem vals_map_entry (g : PFloat → PFloat) (f : ℚ → ℚ)
    (hg1 : g PFloat.nan = PFloat.nan)
    (hg2 : ∀ q, g (PFloat.val q) = PFloat.val (f q)) :
    ∀ c : List PFloat, vals (c.map g) = (vals c).map f := by
  intro c
  induction c with
  | nil => rfl
  | cons x xs ih =>
    cases x with
    | nan => simp only [List.map_cons, hg1, vals, ih]
    | val q => simp only [List.map_cons, hg2, vals, List.map_cons, ih]

theorem map_all_nan {c : List PFloat} {g : PFloat → PFloat}
    (h : ∀ x ∈ c, g x = PFloat.nan) :
    c.map g = List.replicate c.length PFloat.nan := by
  induction c with
  | nil => rfl
  | cons x xs ih =>
    simp only [List.map_cons, List.length_cons, List.replicate_succ]
    refine congrArg₂ List.cons (h x (List.mem_cons_self x xs)) ?_
    exact ih (fun y hy => h y (List.mem_cons_of_mem x hy))

/-! ### Helper lemmas on sorting and column lookup -/

theorem insStr_perm (x : String) (l : List String) :
    (insStr x l).Perm (x :: l) := by
  induction l with
  | nil => exact List.Perm.refl _
  | cons y ys ih =>
    by_cases h : strLe x y
    · simp [insStr, h]
    · simp only [insStr, h, if_neg, Bool.false_eq_true, not_false_eq_true,
        ite_false]
      exact List.Perm.trans (List.Perm.cons y ih) (List.Perm.swap x y ys)

theorem sortStrings_perm (l : List String) : (sortStrings l).Perm l := by
  induction l with
  | nil => exact List.Perm.refl _
  | cons x xs ih =>
    exact List.Perm.trans (insStr_perm x (sortStrings xs)) (List.Perm.cons x ih)

theorem insPair_perm (x : String × List PFloat)
    (l : List (String × List PFloat)) : (insPair x l).Perm (x :: l) := by
  induction l with
  | nil => exact List.Perm.refl _
  | cons y ys ih =>
    by_cases h : strLe x.1 y.1
    · simp [insPair, h]
    · simp only [insPair, h, Bool.false_eq_true, not_false_eq_true, ite_false]
      exact List.Perm.trans (List.Perm.cons y ih) (List.Perm.swap x y ys)

theorem sortPairs_perm (l : List (String × List PFloat)) :
    (sortPairs l).Perm l := by
  induction l with
  | nil => exact List.Perm.refl _
  | cons x xs ih =>
    exact List.Perm.trans (insPair_perm x (sortPairs xs)) (List.Perm.cons x ih)

theorem insPair_map (h : String → List PFloat) (s : String) (l : List String) :
    insPair (s, h s) (l.map (fun t => (t, h t))) =
      (insStr s l).map (fun t => (t, h t)) := by
  induction l with
  | nil => rfl
  | cons y ys ih =>
    by_cases hc : strLe s y
    · simp [insPair, insStr, hc]
    · simp [insPair, insStr, hc, ih]

theorem sortPairs_map (h : String → List PFloat) (l : List String) :
    sortPairs (l.map (fun t => (t, h t))) =
      (sortStrings l).map (fun t => (t, h t)) := by
  induction l with
  | nil => rfl
  | cons x xs ih =>
    simp only [List.map_cons, sortPairs, sortStrings, ih, insPair_map]

theorem lookupColD_eq_of_mem {l : List (String × List PFloat)} {s : String}
    {v : List PFloat} (hnd : (l.map Prod.fst).Nodup) (hm : (s, v) ∈ l) :
    lookupColD l s = v := by
  induction l with
  | nil => cases hm
  | cons c cs ih =>
    rcases List.mem_cons.mp hm with h | h
    · subst h
      simp [lookupColD]
    · have hne : c.1 ≠ s := by
        intro he
        have : s ∈ cs.map Prod.fst := List.mem_map.mpr ⟨(s, v), h, rfl⟩
        rw [List.map_cons] at hnd
        exact (List.nodup_cons.mp hnd).1 (he ▸ this)
      simp only [lookupColD, hne, if_neg, ite_false]
      exact ih (List.nodup_cons.mp hnd).2 h

theorem lookupColD_append_right {l1 l2 : List (String × List PFloat)}
    {s : String} (h : s ∉ l1.map Prod.fst) :
    lookupColD (l1 ++ l2) s = lookupColD l2 s := by
  induction l1 with
  | nil => rfl
  | cons c cs ih =>
    have hne : c.1 ≠ s := fun he =>
      h (List.mem_cons.mpr (Or.inl he.symm))
    simp only [List.cons_append, lookupColD, hne, ite_false]
    exact ih (fun hm => h (List.mem_cons.mpr (Or.inr hm)))

/-- Decidable equality of `Except` results (used to evaluate the model at
concrete inputs). -/
instance instDecEqExcept {e a : Type} [DecidableEq e] [DecidableEq a] :
    DecidableEq (Except e a) := fun x y =>
  match x, y with
  | Except.ok u, Except.ok v =>
    if h : u = v then isTrue (by rw [h])
    else isFalse (by intro he; injection he; contradiction)
  | Except.error u, Except.error v =>
    if h : u = v then isTrue (by rw [h])
    else isFalse (by intro he; injection he; contradiction)
  | Except.ok _, Except.error _ => isFalse (by intro he; cases he)
  | Except.error _, Except.ok _ => isFalse (by intro he; cases he)

/-! ### C6: inner-join semantics of the merge -/

/-- C6 (confirmed).  `merged = atr.merge(log_exp, ...)` joins on the
identifier index with inner-join semantics: an identifier appears among the
merged rows exactly when it appears in both the attribute frame and the
(log-transformed) expression frame; identifiers present on only one side
are silently dropped, with no error and no fuzzy matching. -/
theorem merge_inner_join_ids (atr exp : DFrame) (i : String) :
    i ∈ (mergeFrames atr exp).ids ↔ (i ∈ atr.ids ∧ i ∈ exp.ids) := by
  simp only [mergeFrames, List.mem_filter]
  constructor
  · rintro ⟨h1, h2⟩
    exact ⟨h1, List.elem_iff.mp h2⟩
  · rintro ⟨h1, h2⟩
    exact ⟨h1, List.elem_iff.mpr h2⟩

/-! ### C7: the log2(x + 0.1) expression transform -/

/-- C7 (confirmed).  Before the join, every sample column of the expression
table is mapped elementwise through `log2(x + 0.1)` (`numpy.log2(exp.ix[:, 1:]
+ 0.1)`), the identifiers are untouched, and for every non-negative
abundance `q` the argument `q + 0.1` handed to log2 is strictly positive -
so a zero abundance is mapped to the finite value `log2(0.1)` rather than a
log of zero.  `log2` is the abstract transcendental parameter. -/
theorem logExp_transform (log2 : ℚ → ℚ) (e : DFrame) (s : String)
    (c : List PFloat) (q : ℚ) (hm : (s, c) ∈ e.cols) (hq : 0 ≤ q) :
    (logExpTable log2 e).ids = e.ids ∧
      (s, c.map (fun x => pfApply log2 (pf_add x (PFloat.val (1 / 10))))) ∈
        (logExpTable log2 e).cols ∧
      0 < q + 1 / 10 := by
  refine ⟨rfl, ?_, by linarith⟩
  exact List.mem_map.mpr ⟨(s, c), hm, rfl⟩

/-- Witness for C7 at a concrete table (`log2` instantiated by the
identity; a zero abundance row is present). -/
def idQ : ℚ → ℚ := fun q => q

def e7 : DFrame :=
  ⟨["g1", "g2"], [("s1", [PFloat.val 0, PFloat.val 3])]⟩

theorem logExp_transform_witness :
    (logExpTable idQ e7).ids = e7.ids ∧
      ("s1", [PFloat.val 0, PFloat.val 3].map
          (fun x => pfApply idQ (pf_add x (PFloat.val (1 / 10))))) ∈
        (logExpTable idQ e7).cols ∧
      (0 : ℚ) < 0 + 1 / 10 :=
  logExp_transform idQ e7 "s1" [PFloat.val 0, PFloat.val 3] 0
    (by simp [e7]) (le_refl 0)

/-! ### C9: determinism of the whole aggregation -/

/-- C9 (confirmed).  `summariseBias` is a pure function of the attribute
table, the expression table and the bin count: two runs on identical inputs
produce identical in-memory tables and byte-identical rendered output files
(all binned-means tables, the correlation matrix and the gradient list).
There is no other input: no randomness, no time, no environment. -/
theorem summariseBias_deterministic (log2 sqrtQ : ℚ → ℚ) (atr expr : DFrame)
    (bins : ℕ) :
    summariseBias log2 sqrtQ atr expr bins =
      summariseBias log2 sqrtQ atr expr bins := rfl

/-! ### C10: the dinucleotide-fraction preprocessing -/

/-- C10 (confirmed).  `percentage(x) = float(x[0]) / float(x[1])` has no
guard against a zero length: applied rowwise to a dinucleotide-count column
zipped with the length column, it yields `count / length` for every row
while all lengths are nonzero, and the first row with length 0 aborts the
computation with a `ZeroDivisionError` instead of producing a value. -/
theorem percentage_no_zero_guard (pairs : List (PFloat × PFloat)) :
    ((∀ p ∈ pairs, p.2 ≠ PFloat.val 0) →
        diColumn pairs = Except.ok (pairs.map (fun p => pf_div p.1 p.2))) ∧
      (∀ pre c post, pairs = pre ++ (c, PFloat.val 0) :: post →
        (∀ p ∈ pre, p.2 ≠ PFloat.val 0) →
        diColumn pairs = Except.error zeroDivMsg) := by
  constructor
  · intro hall
    induction pairs with
    | nil => rfl
    | cons p r ih =>
      have hp : p.2 ≠ PFloat.val 0 := hall p (List.mem_cons_self p r)
      have hr := ih (fun q hq => hall q (List.mem_cons_of_mem p hq))
      simp only [diColumn, percentage, hp, ite_false, hr, List.map_cons]
  · intro pre c post hsplit hpre
    subst hsplit
    induction pre with
    | nil => simp [diColumn, percentage]
    | cons p r ih =>
      have hp : p.2 ≠ PFloat.val 0 := hpre p (List.mem_cons_self p r)
      have hr := ih (fun q hq => hpre q (List.mem_cons_of_mem p hq))
      simp only [List.cons_append, diColumn, percentage, hp, ite_false]
      rw [List.append_eq, hr]

/-- Witness for C10: a nonzero-length row divides fine, and a zero-length
row raises. -/
theorem percentage_no_zero_guard_witness :
    diColumn [(PFloat.val 3, PFloat.val 6)] =
        Except.ok [PFloat.val (1 / 2)] ∧
      diColumn [(PFloat.val 3, PFloat.val 6), (PFloat.val 1, PFloat.val 0)] =
        Except.error zeroDivMsg := by
  constructor
  · have h := (percentage_no_zero_guard [(PFloat.val 3, PFloat.val 6)]).1
      (by decide)
    rw [h]
    with_unfolding_all decide
  · exact (percentage_no_zero_guard
        [(PFloat.val 3, PFloat.val 6), (PFloat.val 1, PFloat.val 0)]).2
      [(PFloat.val 3, PFloat.val 6)] (PFloat.val 1) [] rfl (by decide)

/-! ### C2: behaviour when bin_count exceeds the row count -/

/-- The only failures `qcut` can produce: the duplicate-bin-edges
`ValueError` and the two numpy guards (no rows, zero bins).  There is no
`InsufficientDataError`. -/
theorem qcut_error_classify (xs : List PFloat) (bins : ℕ) (e : String)
    (h : qcut xs bins = Except.error e) :
    e = dupEdgesMsg ∨ e = emptyColMsg ∨ e = zeroBinsMsg := by
  unfold qcut at h
  by_cases h0 : bins = 0
  · simp only [h0, ite_true] at h
    injection h with h
    exact Or.inr (Or.inr h.symm)
  · simp only [h0, ite_false] at h
    by_cases h1 : (vals xs).isEmpty
    · simp only [h1, ite_true] at h
      injection h with h
      exact Or.inr (Or.inl h.symm)
    · simp only [h1, ite_false, Bool.false_eq_true] at h
      by_cases h2 : hasDup ((List.range (bins + 1)).map
          (fun k => quantileAt (sortQ (vals xs)) ((k : ℚ) / (bins : ℚ))))
      · simp only [h2, ite_true] at h
        injection h with h
        exact Or.inl h.symm
      · simp only [h2, Bool.false_eq_true, ite_false] at h
        cases h

/-- C2 (corrected).  There is no `InsufficientDataError` anywhere in the
aggregation: for any merged table, any attribute, any sample list and any
bin count - in particular when the table has fewer rows than `bin_count` -
`aggregate_by_factor` either succeeds (quantile collisions permitting, with
empty bins simply producing NaN rows) or fails with one of `qcut`'s own
errors, chiefly the duplicate-bin-edges `ValueError`. -/
theorem aggregate_error_classification (sqrtQ : ℚ → ℚ) (df : DFrame)
    (attrName : String) (sample_names : List String) (bins : ℕ) :
    (∃ r, aggregate_by_factor sqrtQ df attrName sample_names bins =
        Except.ok r) ∨
      ∃ msg, aggregate_by_factor sqrtQ df attrName sample_names bins =
          Except.error msg ∧
        (msg = dupEdgesMsg ∨ msg = emptyColMsg ∨ msg = zeroBinsMsg) := by
  cases hq : qcut (lookupColD df.cols attrName) bins with
  | error e =>
    refine Or.inr ⟨e, ?_, qcut_error_classify _ _ _ hq⟩
    simp only [aggregate_by_factor, hq]
  | ok assign =>
    apply Or.inl
    apply Exists.intro
    simp only [aggregate_by_factor, hq]
    rfl

/-- The C2 counterexample frame: 5 rows, one attribute, one sample. -/
def dfC2 : DFrame :=
  ⟨["a", "b", "c", "d", "e"],
   [("length", [PFloat.val 1, PFloat.val 2, PFloat.val 3, PFloat.val 4,
      PFloat.val 5]),
    ("s1", [PFloat.val 2, PFloat.val 4, PFloat.val 4, PFloat.val 8,
      PFloat.val 10])]⟩

/-- C2 counterexample: 20 requested bins on a 5-row merged table do NOT
raise - the 21 interpolated quantile edges of 5 strictly increasing values
are distinct, `qcut` succeeds, and the aggregation returns a result (the 15
empty bins merely contribute NaN rows).  The claimed
`InsufficientDataError` does not occur. -/
theorem insufficient_data_counterexample :
    (lookupColD dfC2.cols lengthName).length = 5 ∧
      exceptOk (aggregate_by_factor idQ dfC2 lengthName ["s1"] 20) = true := by
  with_unfolding_all decide

/-! ### C3: behaviour on missing attribute values -/

/-- C3 (corrected).  A missing (NaN) attribute value does not make the
aggregation fail: whenever `qcut` succeeds, the rows holding NaN are simply
assigned to no bin (and are therefore excluded from every bin mean, which
only aggregates rows assigned to the bin); no `InvalidAttributeError`
exists. -/
theorem qcut_missing_value_no_bin (xs : List PFloat) (bins : ℕ)
    (assign : List (Option ℕ)) (i : ℕ)
    (hq : qcut xs bins = Except.ok assign)
    (hi : xs.get? i = some PFloat.nan) :
    assign.get? i = some none := by
  unfold qcut at hq
  by_cases h0 : bins = 0
  · simp only [h0, ite_true] at hq
    cases hq
  · simp only [h0, ite_false] at hq
    by_cases h1 : (vals xs).isEmpty
    · simp only [h1, ite_true] at hq
      cases hq
    · simp only [h1, Bool.false_eq_true, ite_false] at hq
      by_cases h2 : hasDup ((List.range (bins + 1)).map
          (fun k => quantileAt (sortQ (vals xs)) ((k : ℚ) / (bins : ℚ))))
      · simp only [h2, ite_true] at hq
        cases hq
      · simp only [h2, Bool.false_eq_true, ite_false] at hq
        injection hq with hq
        rw [← hq, List.get?_map, hi]
        rfl

/-- Witness for C3's amended behaviour at a concrete column: the NaN row
gets no bin while `qcut` succeeds around it. -/
theorem qcut_missing_value_no_bin_witness :
    qcut [PFloat.val 1, PFloat.nan, PFloat.val 2, PFloat.val 3] 2 =
        Except.ok [some 0, none, some 0, some 1] ∧
      [PFloat.val 1, PFloat.nan, PFloat.val 2, PFloat.val 3].get? 1 =
        some PFloat.nan ∧
      ([some 0, none, some 0, some 1] : List (Option ℕ)).get? 1 =
        some none := by
  refine ⟨by with_unfolding_all decide, rfl, ?_⟩
  exact qcut_missing_value_no_bin
    [PFloat.val 1, PFloat.nan, PFloat.val 2, PFloat.val 3] 2
    [some 0, none, some 0, some 1] 1 (by with_unfolding_all decide) rfl

/-- The C3 counterexample frame: the attribute column has a missing value. -/
def dfC3 : DFrame :=
  ⟨["a", "b", "c", "d"],
   [("length", [PFloat.val 1, PFloat.nan, PFloat.val 2, PFloat.val 3]),
    ("s1", [PFloat.val 2, PFloat.val 4, PFloat.val 6, PFloat.val 8])]⟩

/-- C3 counterexample: an attribute column containing a missing value does
NOT fail with `InvalidAttributeError` before binning - quantile binning is
carried out over the non-missing values and the whole per-attribute
aggregation succeeds (so its output table would be written). -/
theorem invalid_attribute_counterexample :
    exceptOk (aggregate_by_factor idQ dfC3 lengthName ["s1"] 2) = true := by
  with_unfolding_all decide

/-! ### C1: degenerate min-max normalization -/

/-- The C1 counterexample frame: two rows, one bin, so the sample column's
binned means are constant (max == min). -/
def dfC1 : DFrame :=
  ⟨["a", "b"],
   [("length", [PFloat.val 1, PFloat.val 2]),
    ("s1", [PFloat.val 5, PFloat.val 7])]⟩

/-- C1 counterexample: with a single bin the sample column's binned means
are constant, so max == min - yet `aggregate_by_factor` does NOT fail with
any error (let alone a reported `DegenerateBinError`): it returns
successfully, with the normalized sample column silently turned into NaN
(the `0/0` of the min-max division), which flows on into the output. -/
theorem degenerate_bin_counterexample :
    aggregate_by_factor idQ dfC1 lengthName ["s1"] 1 =
      Except.ok
        { meansDF := [("s1", [PFloat.nan]),
            ("length", [PFloat.val (3 / 2)])]
          corrCol := [PFloat.nan]
          gradients := [PFloat.nan] } := by
  with_unfolding_all decide

/-- C1 (corrected).  When a column's bin means are degenerate
(`max == min`, e.g. a single bin or constant values) the min-max
normalization raises nothing: every entry becomes NaN (`0/0`), silently.
There is no `DegenerateBinError`; the NaN column propagates into the
written output. -/
theorem degenerate_normalization_all_nan (c : List PFloat)
    (h : pMax c = pMin c) :
    normalizeCol c = List.replicate c.length PFloat.nan := by
  rcases hv : vals c with _ | ⟨q, qs⟩
  · -- all entries are missing: NaN maps to NaN
    have hnan := vals_nil_all_nan hv
    unfold normalizeCol
    refine map_all_nan ?_
    intro x hx
    rw [hnan x hx, pf_sub_nan_left, pf_div_nan_left]
  · -- all values equal the common min = max
    have hmin : pMin c = PFloat.val (qs.foldl min q) := by
      unfold pMin
      rw [hv]
    have hmax : pMax c = PFloat.val (qs.foldl max q) := by
      unfold pMax
      rw [hv]
    have hqq : qs.foldl max q = qs.foldl min q := by
      have := h
      rw [hmin, hmax] at this
      injection this
    unfold normalizeCol
    refine map_all_nan ?_
    intro x hx
    cases x with
    | nan => rw [pf_sub_nan_left, pf_div_nan_left]
    | val v =>
      have hvmem : v ∈ vals c := vals_mem hx
      rw [hv] at hvmem
      have h1 : qs.foldl min q ≤ v := by
        rcases List.mem_cons.mp hvmem with h' | h'
        · subst h'
          exact foldl_min_le qs v
        · exact foldl_min_le_mem qs q v h'
      have h2 : v ≤ qs.foldl max q := by
        rcases List.mem_cons.mp hvmem with h' | h'
        · subst h'
          exact le_foldl_max qs v
        · exact mem_le_foldl_max qs q v h'
      have hveq : v = qs.foldl min q := le_antisymm (hqq ▸ h2) h1
      rw [hmin, hmax, hqq, pf_sub_val, pf_sub_val, ← hveq, sub_self]
      simp [pf_div]

/-- Witness for C1's amended behaviour: a concrete constant column is
normalized to all-NaN. -/
theorem degenerate_normalization_all_nan_witness :
    pMax [PFloat.val 2, PFloat.val 2] = pMin [PFloat.val 2, PFloat.val 2] ∧
      normalizeCol [PFloat.val 2, PFloat.val 2] =
        List.replicate 2 PFloat.nan :=
  ⟨by with_unfolding_all decide,
    degenerate_normalization_all_nan [PFloat.val 2, PFloat.val 2]
      (by with_unfolding_all decide)⟩


/-! ### C5: min-max normalization maps sample columns onto [0,1] -/

/-- Like `lookupColD_eq_of_mem`, but through an appended tail. -/
theorem lookupColD_mem_append {l1 l2 : List (String × List PFloat)}
    {s : String} {v : List PFloat} (hnd : (l1.map Prod.fst).Nodup)
    (hm : (s, v) ∈ l1) : lookupColD (l1 ++ l2) s = v := by
  induction l1 with
  | nil => cases hm
  | cons c cs ih =>
    rcases List.mem_cons.mp hm with h | h
    · subst h
      simp [lookupColD]
    · have hne : c.1 ≠ s := by
        intro he
        have : s ∈ cs.map Prod.fst := List.mem_map.mpr ⟨(s, v), h, rfl⟩
        rw [List.map_cons] at hnd
        exact (List.nodup_cons.mp hnd).1 (he ▸ this)
      simp only [List.cons_append, lookupColD, hne, ite_false]
      exact ih (List.nodup_cons.mp hnd).2 h

/-- The named column of a successful `aggregate_by_factor` binned-means
table (`[]` junk on error). -/
def aggMeansCol (r : Except String AggResult) (s : String) : List PFloat :=
  match r with
  | Except.ok a => lookupColD a.meansDF s
  | Except.error _ => []

/-- Min-max normalization of a column whose non-missing entries are not all
equal yields minimum 0 and maximum 1 (NaN entries from empty bins are
skipped by the pandas min/max, as in the source). -/
theorem norm_minmax (c : List PFloat) (mn mx : ℚ)
    (hmn : pMin c = PFloat.val mn) (hmx : pMax c = PFloat.val mx)
    (hne : mn ≠ mx) :
    pMin (normalizeCol c) = PFloat.val 0 ∧
      pMax (normalizeCol c) = PFloat.val 1 := by
  rcases hv : vals c with _ | ⟨q, qs⟩
  · unfold pMin at hmn
    rw [hv] at hmn
    cases hmn
  · have hmn2 : mn = qs.foldl min q := by
      unfold pMin at hmn
      rw [hv] at hmn
      injection hmn with h
      exact h.symm
    have hmx2 : mx = qs.foldl max q := by
      unfold pMax at hmx
      rw [hv] at hmx
      injection hmx with h
      exact h.symm
    have hle : mn ≤ mx := by
      rw [hmn2, hmx2]
      exact le_trans (foldl_min_le qs q) (le_foldl_max qs q)
    have hlt : mn < mx := lt_of_le_of_ne hle hne
    have hd : (0 : ℚ) < mx - mn := sub_pos.mpr hlt
    have hdne : mx - mn ≠ 0 := ne_of_gt hd
    have hmono : Monotone (fun x : ℚ => (x - mn) / (mx - mn)) := by
      intro x y hxy
      exact (div_le_div_iff_of_pos_right hd).mpr (sub_le_sub_right hxy mn)
    have hvals : vals (normalizeCol c) =
        (vals c).map (fun x : ℚ => (x - mn) / (mx - mn)) := by
      have hrepr : normalizeCol c = c.map (fun x =>
          pf_div (pf_sub x (PFloat.val mn)) (pf_sub (PFloat.val mx)
            (PFloat.val mn))) := by
        unfold normalizeCol
        rw [hmn, hmx]
      rw [hrepr]
      refine vals_map_entry _ (fun x : ℚ => (x - mn) / (mx - mn)) ?_ ?_ c
      · rw [pf_sub_nan_left, pf_div_nan_left]
      · intro r
        rw [pf_sub_val, pf_sub_val, pf_div_val _ _ hdne]
    have h0 : vals (normalizeCol c) =
        ((q - mn) / (mx - mn)) ::
          (qs.map fun x : ℚ => (x - mn) / (mx - mn)) := by
      rw [hvals, hv, List.map_cons]
    constructor
    · unfold pMin
      rw [h0]
      show PFloat.val ((qs.map fun x : ℚ => (x - mn) / (mx - mn)).foldl min
        ((q - mn) / (mx - mn))) = PFloat.val 0
      have hmf := foldl_min_map (fun x : ℚ => (x - mn) / (mx - mn))
        (fun a b => hmono.map_min) qs q
      simp only [] at hmf
      rw [hmf, ← hmn2]
      simp
    · unfold pMax
      rw [h0]
      show PFloat.val ((qs.map fun x : ℚ => (x - mn) / (mx - mn)).foldl max
        ((q - mn) / (mx - mn))) = PFloat.val 1
      have hmf := foldl_max_map (fun x : ℚ => (x - mn) / (mx - mn))
        (fun a b => hmono.map_max) qs q
      simp only [] at hmf
      rw [hmf, ← hmx2]
      simp [div_self hdne]

/-- C5 (corrected).  In an error-free `aggregate_by_factor` table, every
sample column whose binned means are NOT degenerate (min over bins differs
from max) is min-max normalized so that its minimum over bins is 0 and its
maximum is 1, while the attribute's own bin-mean column is kept in its
original, unnormalized scale.  (The original claim fails only for
degenerate columns, which come out all-NaN instead - see the
counterexample.) -/
theorem sample_columns_unit_normalized (sqrtQ : ℚ → ℚ) (df : DFrame)
    (attrName : String) (sample_names : List String) (bins : ℕ)
    (assign : List (Option ℕ)) (s : String) (mn mx : ℚ)
    (hq : qcut (lookupColD df.cols attrName) bins = Except.ok assign)
    (hnd : sample_names.Nodup)
    (hs : s ∈ sample_names)
    (hna : attrName ∉ sample_names)
    (hmn : pMin (binnedMeanCol assign bins (lookupColD df.cols s)) =
      PFloat.val mn)
    (hmx : pMax (binnedMeanCol assign bins (lookupColD df.cols s)) =
      PFloat.val mx)
    (hne : mn ≠ mx) :
    exceptOk (aggregate_by_factor sqrtQ df attrName sample_names bins) =
        true ∧
      aggMeansCol (aggregate_by_factor sqrtQ df attrName sample_names bins)
          s =
        normalizeCol (binnedMeanCol assign bins (lookupColD df.cols s)) ∧
      pMin (aggMeansCol
          (aggregate_by_factor sqrtQ df attrName sample_names bins) s) =
        PFloat.val 0 ∧
      pMax (aggMeansCol
          (aggregate_by_factor sqrtQ df attrName sample_names bins) s) =
        PFloat.val 1 ∧
      aggMeansCol (aggregate_by_factor sqrtQ df attrName sample_names bins)
          attrName =
        binnedMeanCol assign bins (lookupColD df.cols attrName) := by
  have hagg : aggregate_by_factor sqrtQ df attrName sample_names bins =
      Except.ok
        { meansDF := sortPairs (sample_names.map (fun t =>
              (t, normalizeCol (binnedMeanCol assign bins
                (lookupColD df.cols t))))) ++
            [(attrName, binnedMeanCol assign bins
              (lookupColD df.cols attrName))]
          corrCol := (sortPairs (sample_names.map (fun t =>
              (t, normalizeCol (binnedMeanCol assign bins
                (lookupColD df.cols t)))))).map (fun p =>
            spearmanPairs sqrtQ p.2 (binnedMeanCol assign bins
              (lookupColD df.cols attrName)))
          gradients := sample_names.map (fun t =>
            slopeP (binnedMeanCol assign bins (lookupColD df.cols attrName))
              (normalizeCol (binnedMeanCol assign bins
                (lookupColD df.cols t)))) } := by
    simp only [aggregate_by_factor, hq]
  have hperm := sortPairs_perm (sample_names.map (fun t =>
    (t, normalizeCol (binnedMeanCol assign bins (lookupColD df.cols t)))))
  have hkeys : ((sample_names.map (fun t =>
      (t, normalizeCol (binnedMeanCol assign bins
        (lookupColD df.cols t))))).map Prod.fst) = sample_names := by
    rw [List.map_map]
    exact List.map_id sample_names
  have hkeysperm : ((sortPairs (sample_names.map (fun t =>
      (t, normalizeCol (binnedMeanCol assign bins
        (lookupColD df.cols t)))))).map Prod.fst).Perm sample_names := by
    refine (hperm.map Prod.fst).trans ?_
    rw [hkeys]
  have hndkeys : ((sortPairs (sample_names.map (fun t =>
      (t, normalizeCol (binnedMeanCol assign bins
        (lookupColD df.cols t)))))).map Prod.fst).Nodup :=
    hkeysperm.nodup_iff.mpr hnd
  have hmem : (s, normalizeCol (binnedMeanCol assign bins
      (lookupColD df.cols s))) ∈ sortPairs (sample_names.map (fun t =>
        (t, normalizeCol (binnedMeanCol assign bins
          (lookupColD df.cols t))))) :=
    hperm.mem_iff.mpr (List.mem_map.mpr ⟨s, hs, rfl⟩)
  have hlook : lookupColD (sortPairs (sample_names.map (fun t =>
      (t, normalizeCol (binnedMeanCol assign bins
        (lookupColD df.cols t))))) ++
        [(attrName, binnedMeanCol assign bins
          (lookupColD df.cols attrName))]) s =
      normalizeCol (binnedMeanCol assign bins (lookupColD df.cols s)) :=
    lookupColD_mem_append hndkeys hmem
  have hnotin : attrName ∉ ((sortPairs (sample_names.map (fun t =>
      (t, normalizeCol (binnedMeanCol assign bins
        (lookupColD df.cols t)))))).map Prod.fst) := fun hmem2 =>
    hna (hkeysperm.mem_iff.mp hmem2)
  have hlookA : lookupColD (sortPairs (sample_names.map (fun t =>
      (t, normalizeCol (binnedMeanCol assign bins
        (lookupColD df.cols t))))) ++
        [(attrName, binnedMeanCol assign bins
          (lookupColD df.cols attrName))]) attrName =
      binnedMeanCol assign bins (lookupColD df.cols attrName) := by
    rw [lookupColD_append_right hnotin]
    simp [lookupColD]
  have hnm := norm_minmax (binnedMeanCol assign bins (lookupColD df.cols s))
    mn mx hmn hmx hne
  have hac : aggMeansCol
      (aggregate_by_factor sqrtQ df attrName sample_names bins) s =
      normalizeCol (binnedMeanCol assign bins (lookupColD df.cols s)) := by
    rw [hagg]
    exact hlook
  have hacA : aggMeansCol
      (aggregate_by_factor sqrtQ df attrName sample_names bins) attrName =
      binnedMeanCol assign bins (lookupColD df.cols attrName) := by
    rw [hagg]
    exact hlookA
  refine ⟨by rw [hagg]; rfl, hac, ?_, ?_, hacA⟩
  · rw [hac]
    exact hnm.1
  · rw [hac]
    exact hnm.2

/-- The C5 counterexample frame: the sample column is constant, so its two
bin means coincide. -/
def dfC5 : DFrame :=
  ⟨["a", "b", "c", "d"],
   [("length", [PFloat.val 0, PFloat.val 1, PFloat.val 2, PFloat.val 3]),
    ("s1", [PFloat.val 5, PFloat.val 5, PFloat.val 5, PFloat.val 5])]⟩

/-- C5 counterexample: this binned-means table is produced without any
error, yet the constant sample column is NOT normalized to [0,1] - its
minimum over bins is NaN (the whole column is NaN), not 0.0. -/
theorem unit_normalization_counterexample :
    exceptOk (aggregate_by_factor idQ dfC5 lengthName ["s1"] 2) = true ∧
      pMin (aggMeansCol (aggregate_by_factor idQ dfC5 lengthName ["s1"] 2)
        "s1") = PFloat.nan ∧
      PFloat.nan ≠ PFloat.val 0 := by
  with_unfolding_all decide

/-- The C5 witness frame: a non-degenerate sample column. -/
def dfW5 : DFrame :=
  ⟨["a", "b", "c", "d"],
   [("length", [PFloat.val 0, PFloat.val 1, PFloat.val 2, PFloat.val 3]),
    ("s1", [PFloat.val 0, PFloat.val 0, PFloat.val 2, PFloat.val 2])]⟩

/-- Witness for C5 at a concrete non-degenerate table. -/
theorem sample_columns_unit_normalized_witness :
    exceptOk (aggregate_by_factor idQ dfW5 lengthName ["s1"] 2) = true ∧
      aggMeansCol (aggregate_by_factor idQ dfW5 lengthName ["s1"] 2) "s1" =
        normalizeCol (binnedMeanCol [some 0, some 0, some 1, some 1] 2
          (lookupColD dfW5.cols "s1")) ∧
      pMin (aggMeansCol (aggregate_by_factor idQ dfW5 lengthName ["s1"] 2)
        "s1") = PFloat.val 0 ∧
      pMax (aggMeansCol (aggregate_by_factor idQ dfW5 lengthName ["s1"] 2)
        "s1") = PFloat.val 1 ∧
      aggMeansCol (aggregate_by_factor idQ dfW5 lengthName ["s1"] 2)
          lengthName =
        binnedMeanCol [some 0, some 0, some 1, some 1] 2
          (lookupColD dfW5.cols lengthName) :=
  sample_columns_unit_normalized idQ dfW5 lengthName ["s1"] 2
    [some 0, some 0, some 1, some 1] "s1" 0 2
    (by with_unfolding_all decide) (by decide) (by decide) (by decide)
    (by with_unfolding_all decide) (by with_unfolding_all decide)
    (by decide)

/-! ### C4: row labelling of the output tables -/

/-- The C4 failing frame: sample columns appear in the order `sb`, `sa`
(not alphabetical); `sa` is constant (gradient NaN), `sb` increases with
the attribute (gradient 1/2). -/
def dfC4 : DFrame :=
  ⟨["r1", "r2", "r3", "r4"],
   [("length", [PFloat.val 0, PFloat.val 1, PFloat.val 2, PFloat.val 3]),
    ("sb", [PFloat.val 0, PFloat.val 0, PFloat.val 2, PFloat.val 2]),
    ("sa", [PFloat.val 1, PFloat.val 1, PFloat.val 1, PFloat.val 1])]⟩

/-- C4 (code bug).  The gradient table's rows are mislabelled whenever the
sample columns are not already in alphabetical order: gradients are
computed with `for sample in samples` in the ORIGINAL column order
(`sb` then `sa` here), but the `sample` label column attached to the table
is `sorted(samples)` (`sa` then `sb`).  Evaluated at the failing input: the
first gradient row is labelled `sa` yet holds 1/2, the gradient computed
for `sb`, while the gradient actually computed for `sa` is NaN.  (The
correlation table does not have this bug: its rows really are in sorted
order, because they come from the column-sorted `means_df`.) -/
theorem gradient_rows_mislabelled (sqrtQ : ℚ → ℚ) :
    aggLabels (mainAggregation sqrtQ dfC4 [lengthName] ["sb", "sa"] 2) =
        some ["sa", "sb"] ∧
      aggGradCols (mainAggregation sqrtQ dfC4 [lengthName] ["sb", "sa"] 2) =
        some [("length", [PFloat.val (1 / 2), PFloat.nan])] ∧
      gradValFor dfC4 lengthName 2 "sa" = PFloat.nan ∧
      gradValFor dfC4 lengthName 2 "sb" = PFloat.val (1 / 2) ∧
      PFloat.val (1 / 2) ≠ PFloat.nan := by
  refine ⟨?_, ?_, ?_, ?_, by with_unfolding_all decide⟩
  · with_unfolding_all rfl
  · with_unfolding_all rfl
  · with_unfolding_all rfl
  · with_unfolding_all rfl

/-! ### C8: swapping two samples' columns swaps their output rows -/

/-- Unfolding of `corrValFor` when `qcut` succeeds. -/
theorem corrValFor_eq {df : DFrame} {attrName : String} {bins : ℕ}
    {assign : List (Option ℕ)} (sqrtQ : ℚ → ℚ)
    (hq : qcut (lookupColD df.cols attrName) bins = Except.ok assign)
    (s : String) :
    corrValFor sqrtQ df attrName bins s =
      spearmanPairs sqrtQ
        (normalizeCol (binnedMeanCol assign bins (lookupColD df.cols s)))
        (binnedMeanCol assign bins (lookupColD df.cols attrName)) := by
  simp only [corrValFor, hq]

/-- Unfolding of `gradValFor` when `qcut` succeeds. -/
theorem gradValFor_eq {df : DFrame} {attrName : String} {bins : ℕ}
    {assign : List (Option ℕ)}
    (hq : qcut (lookupColD df.cols attrName) bins = Except.ok assign)
    (s : String) :
    gradValFor df attrName bins s =
      slopeP (binnedMeanCol assign bins (lookupColD df.cols attrName))
        (normalizeCol (binnedMeanCol assign bins (lookupColD df.cols s))) := by
  simp only [gradValFor, hq]

/-- `aggregate_by_factor` in per-sample compositional form: the correlation
column is the per-sample correlation in sorted-label order, the gradients
are the per-sample slopes in original order. -/
theorem aggregate_by_factor_eq (sqrtQ : ℚ → ℚ) (df : DFrame)
    (attrName : String) (samples : List String) (bins : ℕ)
    (assign : List (Option ℕ))
    (hq : qcut (lookupColD df.cols attrName) bins = Except.ok assign) :
    aggregate_by_factor sqrtQ df attrName samples bins = Except.ok
      { meansDF := (sortStrings samples).map (fun t =>
            (t, normalizeCol (binnedMeanCol assign bins
              (lookupColD df.cols t)))) ++
          [(attrName, binnedMeanCol assign bins
            (lookupColD df.cols attrName))]
        corrCol := (sortStrings samples).map
          (fun s => corrValFor sqrtQ df attrName bins s)
        gradients := samples.map (fun s => gradValFor df attrName bins s) } := by
  have hsp := sortPairs_map (fun t =>
    normalizeCol (binnedMeanCol assign bins (lookupColD df.cols t))) samples
  simp only [] at hsp
  simp only [aggregate_by_factor, hq, hsp, List.map_map, Except.ok.injEq,
    AggResult.mk.injEq]
  refine ⟨trivial, ?_, ?_⟩
  · refine List.map_congr_left ?_
    intro t ht
    simp only [Function.comp]
    rw [corrValFor_eq sqrtQ hq t]
  · refine List.map_congr_left ?_
    intro t ht
    rw [gradValFor_eq hq t]

/-- `aggregate_by_factor` propagates a `qcut` failure unchanged. -/
theorem aggregate_by_factor_error (sqrtQ : ℚ → ℚ) (df : DFrame)
    (attrName : String) (samples : List String) (bins : ℕ) (e : String)
    (hq : qcut (lookupColD df.cols attrName) bins = Except.error e) :
    aggregate_by_factor sqrtQ df attrName samples bins = Except.error e := by
  simp only [aggregate_by_factor, hq]

/-- A sample's correlation value only depends on the attribute column and
that sample's own column. -/
theorem corrValFor_congr (sqrtQ : ℚ → ℚ) {m2 m1 : DFrame} {f : String}
    {bins : ℕ} {s t : String}
    (hf : lookupColD m2.cols f = lookupColD m1.cols f)
    (hs : lookupColD m2.cols s = lookupColD m1.cols t) :
    corrValFor sqrtQ m2 f bins s = corrValFor sqrtQ m1 f bins t := by
  unfold corrValFor
  rw [hf, hs]

/-- A sample's gradient only depends on the attribute column and that
sample's own column. -/
theorem gradValFor_congr {m2 m1 : DFrame} {f : String} {bins : ℕ}
    {s t : String}
    (hf : lookupColD m2.cols f = lookupColD m1.cols f)
    (hs : lookupColD m2.cols s = lookupColD m1.cols t) :
    gradValFor m2 f bins s = gradValFor m1 f bins t := by
  unfold gradValFor
  rw [hf, hs]

/-- The factor loop under a data swap of two sample columns: on the
original frame it produces the per-sample values in order, and on the
swapped frame the values for `a` and `b` are exchanged while every other
sample's values are unchanged. -/
theorem aggLoop_swap (sqrtQ : ℚ → ℚ) (m1 m2 : DFrame)
    (samples : List String) (bins : ℕ) (a b : String)
    (hswap : ∀ s ∈ samples, lookupColD m2.cols s =
      lookupColD m1.cols (swapName a b s)) :
    ∀ (fs : List String),
      (∀ f ∈ fs, lookupColD m2.cols f = lookupColD m1.cols f) →
      ∀ acc1, aggLoop sqrtQ m1 samples bins fs = Except.ok acc1 →
        acc1.corrs = fs.map (fun f => (f, (sortStrings samples).map
            (fun s => corrValFor sqrtQ m1 f bins s))) ∧
        acc1.grads = fs.map (fun f => (f, samples.map
            (fun s => gradValFor m1 f bins s))) ∧
        ∃ bn2, aggLoop sqrtQ m2 samples bins fs = Except.ok
          ⟨bn2,
           fs.map (fun f => (f, (sortStrings samples).map
             (fun s => corrValFor sqrtQ m1 f bins (swapName a b s)))),
           fs.map (fun f => (f, samples.map
             (fun s => gradValFor m1 f bins (swapName a b s))))⟩ := by
  intro fs
  induction fs with
  | nil =>
    intro _ acc1 hacc
    simp only [aggLoop] at hacc
    injection hacc with h
    subst h
    exact ⟨rfl, rfl, [], rfl⟩
  | cons f fs ih =>
    intro hattr acc1 hacc
    have hf2 : lookupColD m2.cols f = lookupColD m1.cols f :=
      hattr f (List.mem_cons_self f fs)
    cases hqc : qcut (lookupColD m1.cols f) bins with
    | error e =>
      rw [aggLoop, aggregate_by_factor_error sqrtQ m1 f samples bins e hqc]
        at hacc
      cases hacc
    | ok assign =>
      have hm1 := aggregate_by_factor_eq sqrtQ m1 f samples bins assign hqc
      cases hrec : aggLoop sqrtQ m1 samples bins fs with
      | error e =>
        rw [aggLoop, hm1] at hacc
        simp only [hrec] at hacc
        cases hacc
      | ok acc =>
        rw [aggLoop, hm1] at hacc
        simp only [hrec] at hacc
        obtain ⟨hc, hg, bn2, h2⟩ :=
          ih (fun g hg' => hattr g (List.mem_cons_of_mem f hg')) acc hrec
        have hqc2 : qcut (lookupColD m2.cols f) bins = Except.ok assign := by
          rw [hf2]
          exact hqc
        have hm2 := aggregate_by_factor_eq sqrtQ m2 f samples bins assign hqc2
        have hcorr2 : (sortStrings samples).map
            (fun s => corrValFor sqrtQ m2 f bins s) =
            (sortStrings samples).map
              (fun s => corrValFor sqrtQ m1 f bins (swapName a b s)) := by
          refine List.map_congr_left ?_
          intro t ht
          exact corrValFor_congr sqrtQ hf2
            (hswap t ((sortStrings_perm samples).mem_iff.mp ht))
        have hgrad2 : samples.map (fun s => gradValFor m2 f bins s) =
            samples.map (fun s => gradValFor m1 f bins (swapName a b s)) := by
          refine List.map_congr_left ?_
          intro t ht
          exact gradValFor_congr hf2 (hswap t ht)
        injection hacc with h
        subst h
        refine ⟨?_, ?_, ?_⟩
        · simp only [List.map_cons, hc]
        · simp only [List.map_cons, hg]
        · refine ⟨((f, ((sortStrings samples).map (fun t =>
              (t, normalizeCol (binnedMeanCol assign bins
                (lookupColD m2.cols t)))) ++
              [(f, binnedMeanCol assign bins (lookupColD m2.cols f))])) ::
                bn2), ?_⟩
          rw [aggLoop, hm2]
          simp only [h2, List.map_cons, hcorr2, hgrad2]

/-- C8 (confirmed).  Swap two samples' columns in the expression data
(sample labels keep their positions, the two columns' values are
exchanged): if the original aggregation succeeds, the swapped one succeeds
too, the `sample` label column is unchanged, and in both the
CorrelationMatrix and the GradientList exactly the two rows belonging to
the swapped samples exchange their values - every row for a sample other
than `a` and `b` is unchanged (`swapName a b` fixes it).  Stated through
the per-sample value functions `corrValFor` / `gradValFor`: run 1 holds
value `F s` in the row at `s`'s position, run 2 holds `F (swapName a b s)`
there. -/
theorem column_swap_swaps_rows (sqrtQ : ℚ → ℚ) (m1 m2 : DFrame)
    (factors samples : List String) (bins : ℕ) (a b : String)
    (hok : exceptOk (mainAggregation sqrtQ m1 factors samples bins) = true)
    (hattr : ∀ f ∈ factors, lookupColD m2.cols f = lookupColD m1.cols f)
    (hswap : ∀ s ∈ samples, lookupColD m2.cols s =
      lookupColD m1.cols (swapName a b s)) :
    aggLabels (mainAggregation sqrtQ m2 factors samples bins) =
        aggLabels (mainAggregation sqrtQ m1 factors samples bins) ∧
      aggCorrCols (mainAggregation sqrtQ m1 factors samples bins) =
        some (factors.map (fun f => (f, (sortStrings samples).map
          (fun s => corrValFor sqrtQ m1 f bins s)))) ∧
      aggCorrCols (mainAggregation sqrtQ m2 factors samples bins) =
        some (factors.map (fun f => (f, (sortStrings samples).map
          (fun s => corrValFor sqrtQ m1 f bins (swapName a b s))))) ∧
      aggGradCols (mainAggregation sqrtQ m1 factors samples bins) =
        some (factors.map (fun f => (f, samples.map
          (fun s => gradValFor m1 f bins s)))) ∧
      aggGradCols (mainAggregation sqrtQ m2 factors samples bins) =
        some (factors.map (fun f => (f, samples.map
          (fun s => gradValFor m1 f bins (swapName a b s))))) := by
  cases hl1 : aggLoop sqrtQ m1 samples bins factors with
  | error e =>
    rw [mainAggregation, hl1] at hok
    cases hok
  | ok acc1 =>
    obtain ⟨hc, hg, bn2, h2⟩ :=
      aggLoop_swap sqrtQ m1 m2 samples bins a b hswap factors hattr acc1 hl1
    simp only [mainAggregation, hl1, h2, aggLabels, aggCorrCols, aggGradCols]
    exact ⟨trivial, congrArg some hc, trivial, congrArg some hg, trivial⟩

/-- The C8 witness frames: `dfW8b` is `dfW8a` with the data of columns `sa`
and `sb` exchanged. -/
def dfW8a : DFrame :=
  ⟨["r1", "r2", "r3", "r4"],
   [("length", [PFloat.val 0, PFloat.val 1, PFloat.val 2, PFloat.val 3]),
    ("sb", [PFloat.val 0, PFloat.val 0, PFloat.val 2, PFloat.val 2]),
    ("sa", [PFloat.val 1, PFloat.val 1, PFloat.val 1, PFloat.val 1])]⟩

/-- The swapped C8 witness frame. -/
def dfW8b : DFrame :=
  ⟨["r1", "r2", "r3", "r4"],
   [("length", [PFloat.val 0, PFloat.val 1, PFloat.val 2, PFloat.val 3]),
    ("sb", [PFloat.val 1, PFloat.val 1, PFloat.val 1, PFloat.val 1]),
    ("sa", [PFloat.val 0, PFloat.val 0, PFloat.val 2, PFloat.val 2])]⟩

/-- Witness for C8 at a concrete pair of frames. -/
theorem column_swap_swaps_rows_witness :
    aggLabels (mainAggregation idQ dfW8b ["length"] ["sb", "sa"] 2) =
        aggLabels (mainAggregation idQ dfW8a ["length"] ["sb", "sa"] 2) ∧
      aggCorrCols (mainAggregation idQ dfW8a ["length"] ["sb", "sa"] 2) =
        some (["length"].map (fun f => (f, (sortStrings ["sb", "sa"]).map
          (fun s => corrValFor idQ dfW8a f 2 s)))) ∧
      aggCorrCols (mainAggregation idQ dfW8b ["length"] ["sb", "sa"] 2) =
        some (["length"].map (fun f => (f, (sortStrings ["sb", "sa"]).map
          (fun s => corrValFor idQ dfW8a f 2 (swapName "sa" "sb" s))))) ∧
      aggGradCols (mainAggregation idQ dfW8a ["length"] ["sb", "sa"] 2) =
        some (["length"].map (fun f => (f, ["sb", "sa"].map
          (fun s => gradValFor dfW8a f 2 s)))) ∧
      aggGradCols (mainAggregation idQ dfW8b ["length"] ["sb", "sa"] 2) =
        some (["length"].map (fun f => (f, ["sb", "sa"].map
          (fun s => gradValFor dfW8a f 2 (swapName "sa" "sb" s))))) :=
  column_swap_swaps_rows idQ dfW8a dfW8b ["length"] ["sb", "sa"] 2 "sa" "sb"
    (by with_unfolding_all decide) (by with_unfolding_all decide)
    (by with_unfolding_all decide)
